import Mathlib

/- Shallow embedding of the tct repository.

   Part 1 models utils/isadmin.js (src/unnamed/part_000): identity
   normalization, the participant admin-set construction, the retrying
   metadata fetcher, the permanent admin cache, the group-participants
   event handler and the isadmin predicate.

   Part 2 models src/carl/antilink.js: the warning ledger, the per-chat
   deletion queue, the duplicate-suppression step and the whitelist check
   of the enforcement path.

   JS strings are modelled as lists of characters, JS Maps as functions
   into Option, JS Sets as duplicate-free lists kept in insertion order.
   Asynchronous effects are made explicit: the fetcher takes the result of
   each underlying network attempt as a function argument and returns the
   trace of attempts and waits it produces; isadmin takes the value its
   (deduplicated) fetch would resolve to and reports whether it consulted
   the fetcher. -/

namespace TCT

/-- JS strings are lists of characters. -/
abbrev Str := List Char

/-- ASCII whitespace removed by String.prototype.trim. -/
def isWsChar (c : Char) : Bool :=
  c == ' ' || c == '\t' || c == '\n' || c == '\r' || c == '\x0b' || c == '\x0c'

/-- ASCII lower-casing of one character, as toLowerCase acts on ASCII input. -/
def lowerChar (c : Char) : Char :=
  if 65 ≤ c.toNat ∧ c.toNat ≤ 90 then Char.ofNat (c.toNat + 32) else c

/-- Model of String.prototype.trim. -/
def jsTrim (s : Str) : Str :=
  ((s.dropWhile isWsChar).reverse.dropWhile isWsChar).reverse

/-- Model of String.prototype.toLowerCase on ASCII data. -/
def jsLower (s : Str) : Str := s.map lowerChar

/-- True for characters that are not the separators of the split regex. -/
def notSepChar (c : Char) : Bool := !(c == ':' || c == '/')

/-- Model of s.split of the colon-slash regex taking component 0. -/
def takeLocal (s : Str) : Str := s.takeWhile notSepChar

/-- normalizeJid from isadmin.js lines 26-37, string case.  The falsy check
of line 27 returns the empty string unchanged; trim and lower-case, then
either keep the part before the first colon or slash (no at-sign), or
rebuild local part and domain around the first at-sign. -/
def normalizeJid (j : Str) : Str :=
  if j = [] then j
  else
    let s := jsLower (jsTrim j)
    if '@' ∈ s then
      takeLocal (s.takeWhile (fun c => !(c == '@'))) ++
        '@' :: (s.dropWhile (fun c => !(c == '@'))).tail
    else takeLocal s

/-- A JS value as far as normalizeJid can observe it: a string or one of
the non-string shapes that fail the typeof guard of line 27. -/
inductive JVal where
  | jstr (s : Str)
  | jnull
  | jundef
  | jnum (n : Int)
  | jbool (b : Bool)
  deriving DecidableEq

/-- True exactly on the string constructor. -/
def isJStr : JVal → Bool
  | .jstr _ => true
  | _ => false

/-- normalizeJid on an arbitrary JS value: non-strings (and null and
undefined) are returned unchanged by the guard of line 27. -/
def normalizeJidJs : JVal → JVal
  | .jstr s => .jstr (normalizeJid s)
  | v => v

/-- jidEquals from isadmin.js lines 39-47: false when either side is
falsy, otherwise equality of normalized forms. -/
def jidEquals (a b : Str) : Bool :=
  if a == [] || b == [] then false else normalizeJid a == normalizeJid b

/-- Does the list start with the given needle. -/
def startsWithList : Str → Str → Bool
  | [], _ => true
  | _ :: _, [] => false
  | a :: as, b :: bs => a == b && startsWithList as bs

/-- Model of String.prototype.endsWith. -/
def jsEndsWith (s pat : Str) : Bool := startsWithList pat.reverse s.reverse

/-- Model of String.prototype.includes: needle occurs inside hay. -/
def jsIncludes : Str → Str → Bool
  | hay, needle =>
    if startsWithList needle hay then true
    else
      match hay with
      | [] => false
      | _ :: t => jsIncludes t needle

/-- One entry of a metadata participants array: null, a plain string, or a
participant object carrying the identifier and role fields read by
isadmin.js.  Boolean fields model the truthiness of the corresponding
properties. -/
inductive Participant where
  | pnull
  | pstr (s : Str)
  | pobj (idF jidF participantF : Option Str) (roleF participantTypeF : Str)
      (isAdminF isSuperAdminF adminF superAdminF isCreatorF : Bool)
  deriving DecidableEq

/-- First non-nullish of two optional strings, as the JS nullish operator. -/
def jsNullish (a b : Option Str) : Option Str :=
  match a with
  | some x => some x
  | none => b

/-- normalizeParticipantId from isadmin.js lines 49-54. -/
def normalizeParticipantId : Participant → Option Str
  | .pnull => none
  | .pstr s => if s == [] then none else some (normalizeJid s)
  | .pobj idF jidF participantF _ _ _ _ _ _ _ =>
    match jsNullish idF (jsNullish jidF participantF) with
    | none => none
    | some x => if x == [] then none else some (normalizeJid x)

/-- True on null and plain-string entries, which lines 59-62 skip. -/
def isNullOrStringPart : Participant → Bool
  | .pnull => true
  | .pstr _ => true
  | _ => false

/-- The role string of lines 67: role, falling back to participantType,
falling back to the empty string, lower-cased. -/
def roleString (roleF participantTypeF : Str) : Str :=
  jsLower (if roleF == [] then participantTypeF else roleF)

/-- The admin-marking test of isadmin.js lines 67-77 on one participant. -/
def isAdminMarked : Participant → Bool
  | .pobj _ _ _ roleF participantTypeF a sa ad sad cr =>
    let role := roleString roleF participantTypeF
    a || sa || ad || sad || cr ||
      role == "admin".toList || role == "creator".toList ||
      role == "superadmin".toList || role == "owner".toList
  | _ => false

/-- JS Set insertion: append unless already present. -/
def setAdd (l : List Str) (x : Str) : List Str := if x ∈ l then l else l ++ [x]

/-- JS Set deletion. -/
def setDel (l : List Str) (x : Str) : List Str := l.filter fun a => !(a == x)

/-- One iteration of the participant loop of isadmin.js lines 58-80: skip
null and string entries, skip entries whose normalized id is falsy, add
the id of an admin-marked entry to the set. -/
def buildAdminStep (admins : List Str) (p : Participant) : List Str :=
  if isNullOrStringPart p then admins
  else
    match normalizeParticipantId p with
    | none => admins
    | some i =>
      if i == [] then admins
      else if isAdminMarked p then setAdd admins i else admins

/-- buildAdminSetFromParticipants from isadmin.js lines 56-82. -/
def buildAdminSetFromParticipants (ps : List Participant) : List Str :=
  ps.foldl buildAdminStep []

/-- The group metadata object as isadmin reads it; participants is None
when the object has no participants array. -/
structure GroupMetadata where
  participants : Option (List Participant)
  deriving DecidableEq

/-- Outcome of one underlying metadata call inside the retry loop of
fetchGroupMetadataDeduped: an exception, or a resolved value that is
either null (falsy) or a truthy metadata object. -/
inductive AttemptRes where
  | exn
  | ret (m : Option GroupMetadata)
  deriving DecidableEq

/-- Observable events of the retry loop: the i-th attempt (0-based) and
the sleeps between attempts. -/
inductive FetchEv where
  | attempt (i : Nat)
  | wait (ms : Nat)
  deriving DecidableEq

/-- The retry loop of fetchGroupMetadataDeduped, isadmin.js lines 236-268:
for i from 0 while i < 3, run the attempt; a truthy metadata value is
returned immediately; otherwise, when i < 2, sleep 300 * (i + 1)
milliseconds and continue; after the loop resolve to null.  The fuel
argument is the number of loop iterations left, 3 - i. -/
def fetchRetryLoop (f : Nat → AttemptRes) : Nat → Nat → List FetchEv × Option GroupMetadata
  | 0, _ => ([], none)
  | fuel + 1, i =>
    match f i with
    | .ret (some m) => ([.attempt i], some m)
    | _ =>
      let rest := fetchRetryLoop f fuel (i + 1)
      (.attempt i :: ((if i < 2 then [FetchEv.wait (300 * (i + 1))] else []) ++ rest.1),
        rest.2)

/-- fetchGroupMetadataDeduped, reduced to the retry loop it runs for the
single in-flight promise of one chat id: the trace of attempts and waits,
and the value the promise resolves to. -/
def fetchGroupMetadataDeduped (f : Nat → AttemptRes) : List FetchEv × Option GroupMetadata :=
  fetchRetryLoop f 3 0

/-- The trace produced by the first i attempts all failing: each failed
attempt j is followed by its 300 * (j + 1) ms wait. -/
def attemptTracePrefix : Nat → List FetchEv
  | 0 => []
  | j + 1 => attemptTracePrefix j ++ [FetchEv.attempt j, FetchEv.wait (300 * (j + 1))]

/-- The permanent admin cache: chat id to the admin set of its entry. -/
def AdminCache : Type := Str → Option (List Str)

/-- Map.set on the cache. -/
def cacheSet (c : AdminCache) (g : Str) (v : List Str) : AdminCache :=
  fun x => if x = g then some v else c x

/-- Map.delete on the cache. -/
def cacheDel (c : AdminCache) (g : Str) : AdminCache :=
  fun x => if x = g then none else c x

/-- The key object of an inbound message, with the fields isadmin reads. -/
structure MsgKey where
  fromMe : Bool
  remoteJid : Option Str
  participant : Option Str
  fromField : Option Str

/-- A message context, with the fallback fields isadmin reads. -/
structure Ctx where
  key : Option MsgKey
  remoteJid : Option Str
  participant : Option Str
  sender : Option Str

/-- Collapse a falsy (absent or empty) string to none. -/
def truthyStr : Option Str → Option Str
  | none => none
  | some s => if s == [] then none else some s

/-- JS short-circuit or on strings: the left side when truthy, else the
right side. -/
def jsOrStr (a b : Option Str) : Option Str :=
  match truthyStr a with
  | some s => some s
  | none => b

/-- The chat id resolved by isadmin line 339. -/
def chatIdOf (ctx : Ctx) : Option Str :=
  match ctx.key with
  | none => none
  | some k => truthyStr (jsOrStr k.remoteJid ctx.remoteJid)

/-- The raw sender resolved by isadmin line 344. -/
def senderRawOf (ctx : Ctx) : Option Str :=
  match ctx.key with
  | none => none
  | some k =>
    truthyStr (jsOrStr k.participant (jsOrStr ctx.participant (jsOrStr ctx.sender k.fromField)))

/-- The membership scan of isadmin lines 354-357 and 376-378: some cached
admin id is truthy and jid-equal to the sender. -/
def adminMatches (admins : List Str) (sender : Str) : Bool :=
  admins.any fun a => !(a == []) && jidEquals a sender

/-- Result of one isadmin call: the boolean answer, the cache afterwards,
and whether the call consulted the fetcher. -/
structure IsadminResult where
  result : Bool
  cache : AdminCache
  fetched : Bool

/-- isadmin from isadmin.js lines 334-384.  The fetchResult argument is
the value fetchGroupMetadataDeduped would resolve to if consulted; the
fetched field of the result records whether it was consulted. -/
def isadmin (cache : AdminCache) (ctx : Ctx) (fetchResult : Option GroupMetadata) :
    IsadminResult :=
  match ctx.key with
  | none => ⟨false, cache, false⟩
  | some k =>
    if k.fromMe then ⟨true, cache, false⟩
    else
      match chatIdOf ctx with
      | none => ⟨false, cache, false⟩
      | some chatId =>
        if !(jsEndsWith chatId "@g.us".toList) then ⟨false, cache, false⟩
        else
          match senderRawOf ctx with
          | none => ⟨false, cache, false⟩
          | some senderRaw =>
            let sender := normalizeJid senderRaw
            match cache chatId with
            | some admins => ⟨adminMatches admins sender, cache, false⟩
            | none =>
              match fetchResult with
              | none => ⟨false, cache, true⟩
              | some md =>
                let admins := buildAdminSetFromParticipants (md.participants.getD [])
                ⟨adminMatches admins sender, cacheSet cache chatId admins, true⟩

/-- A group-participants.update event as the gpHandler reads it. -/
structure GpUpdate where
  id : Option Str
  participants : List Participant
  action : Str

/-- The participant ids of the update, mapped through
normalizeParticipantId and filtered by truthiness (gpHandler line 141). -/
def gpPartIds (ps : List Participant) : List Str :=
  ps.filterMap fun p =>
    match normalizeParticipantId p with
    | none => none
    | some s => if s == [] then none else some s

/-- The structural action tags of gpHandler line 155. -/
def structuralActions : List Str :=
  ["add".toList, "remove".toList, "leave".toList, "invite".toList, "change".toList]

/-- gpHandler from isadmin.js lines 127-162: without a cache entry the
event is a no-op (the conditional delete of line 136 deletes a key that is
known absent); with an entry, promote adds the ids to its set, demote
removes them, the structural actions delete the entry, anything else is
ignored. -/
def gpHandler (cache : AdminCache) (u : GpUpdate) : AdminCache :=
  match truthyStr u.id with
  | none => cache
  | some chatId =>
    match cache chatId with
    | none => cache
    | some admins =>
      let partIds := gpPartIds u.participants
      if u.action == "promote".toList then
        cacheSet cache chatId (partIds.foldl setAdd admins)
      else if u.action == "demote".toList then
        cacheSet cache chatId (partIds.foldl setDel admins)
      else if u.action ∈ structuralActions then cacheDel cache chatId
      else cache

/-- The antilink configuration fields the warning ledger reads. -/
structure ALConfig where
  maxWarns : Nat
  removeOnMax : Bool

/-- The perUserWarnings map: user key to stored count. -/
def WarnMap : Type := Str → Option Nat

/-- Map.set or Map.delete on the warnings map. -/
def warnSet (w : WarnMap) (k : Str) (v : Option Nat) : WarnMap :=
  fun x => if x = k then v else w x

/-- userKey from antilink.js line 230. -/
def userKey (chat sender : Str) : Str := chat ++ ':' :: ':' :: sender

/-- The object incrementWarningAndMaybeRemove resolves to. -/
structure WarnOutcome where
  count : Nat
  removed : Bool
  deriving DecidableEq

/-- incrementWarningAndMaybeRemove from antilink.js lines 232-254.  chat
and sender are the values resolved from the context; removeOk tells
whether the groupParticipantsUpdate call succeeds (false models the call
throwing, which lands in the catch of line 250 after the incremented count
was already stored). -/
def incrementWarningAndMaybeRemove (cfg : ALConfig) (w : WarnMap) (chat sender : Str)
    (removeOk : Bool) : WarnMap × WarnOutcome :=
  if chat == [] || sender == [] then (w, ⟨0, false⟩)
  else
    let k := userKey chat sender
    let c := (w k).getD 0 + 1
    let w1 := warnSet w k (some c)
    if cfg.removeOnMax && decide (cfg.maxWarns ≤ c) then
      if removeOk then (warnSet w1 k none, ⟨c, true⟩) else (w1, ⟨0, false⟩)
    else (w1, ⟨c, false⟩)

/-- One scheduler-visible operation on a single chat queue: enqueueDeletion
appending an action, or the drain loop of processChatQueue splicing and
processing one batch from the front.  An arbitrary interleaving of batch
steps models any global concurrency budget and any inter-batch delays. -/
inductive QOp (α : Type) where
  | enq (a : α)
  | batch

/-- The state of one chat queue: actions already handed to deleteWithRetry
in order, and the actions still pending. -/
structure QState (α : Type) where
  processed : List α
  pending : List α

/-- The batch size actually used by the splice: BATCH_SIZE with the falsy
fallback to 1 of antilink.js line 305. -/
def effBatchSize (bs : Nat) : Nat := if bs = 0 then 1 else bs

/-- One step of the queue system of antilink.js lines 274-320. -/
def qstep {α : Type} (bs : Nat) (st : QState α) : QOp α → QState α
  | .enq a => ⟨st.processed, st.pending ++ [a]⟩
  | .batch =>
    ⟨st.processed ++ st.pending.take (effBatchSize bs), st.pending.drop (effBatchSize bs)⟩

/-- Run a sequence of queue operations from the empty queue. -/
def qrun {α : Type} (bs : Nat) (ops : List (QOp α)) : QState α :=
  ops.foldl (qstep bs) ⟨[], []⟩

/-- The actions enqueued by a sequence of operations, in order. -/
def enqsOf {α : Type} (ops : List (QOp α)) : List α :=
  ops.filterMap fun op =>
    match op with
    | .enq a => some a
    | .batch => none

/-- getMessageKey from antilink.js lines 323-326, given the remote jid and
the id field of the key. -/
def getMessageKey (remoteJid : Str) (idField : Option Str) : Option Str :=
  match truthyStr idField with
  | none => none
  | some i => some (remoteJid ++ ':' :: i)

/-- The duplicate-suppression state of onMessage: processedMessageIds maps
a message key to the instant its pending timer fires (acceptance time plus
5000 ms), and queue is the per-chat deletion queue contents in order. -/
structure DupState where
  processed : Str → Option Nat
  queue : List Str

/-- processedMessageIds.has at instant t: an entry exists whose deletion
timer has not fired yet. -/
def hasLiveKey (m : Str → Option Nat) (k : Str) (t : Nat) : Bool :=
  match m k with
  | none => false
  | some e => decide (t < e)

/-- The final step of the enforcement path, antilink.js lines 517-520, for
a violating message with key k arriving at instant t: a live key drops the
message silently, otherwise the key is recorded with a 5000 ms timer and
the action is enqueued.  The boolean reports whether an action was
enqueued. -/
def onMessageLinkStep (st : DupState) (t : Nat) (k : Str) : DupState × Bool :=
  if hasLiveKey st.processed k t then (st, false)
  else
    (⟨fun x => if x = k then some (t + 5000) else st.processed x, st.queue ++ [k]⟩, true)

/-- The whitelist scan of onMessage, antilink.js lines 497-509: an entry
containing an at-sign exempts iff it equals the raw sender jid; an entry
without an at-sign exempts iff it occurs inside the message text. -/
def isWhitelistedMsg (wl : List Str) (senderJid text : Str) : Bool :=
  wl.any fun item =>
    (item.contains '@' && item == senderJid) ||
    (!(item.contains '@') && jsIncludes text item)

/-- Modelled from the claim: the same whitelist scan but with user-identity
entries compared by equality of normalized forms, as the claim words it.
This definition follows the claim text, not the source, and exists only to
be compared with isWhitelistedMsg. -/
def claimWhitelistedMsg (wl : List Str) (senderJid text : Str) : Bool :=
  wl.any fun item =>
    (item.contains '@' && normalizeJid item == normalizeJid senderJid) ||
    (!(item.contains '@') && jsIncludes text item)

/-- The enforcement decision of onMessage lines 480-521 for a group
message: whether the message is enqueued for deletion.  enabled and wl are
the group setting, admin is the isadmin answer, hasLink the
messageContainsLink answer, alreadyProcessed the duplicate test. -/
def enforcementDecision (enabled fromMe admin : Bool) (wl : List Str)
    (senderJid text : Str) (hasLink alreadyProcessed : Bool) : Bool :=
  if !enabled then false
  else if fromMe || admin then false
  else if isWhitelistedMsg wl senderJid text then false
  else if hasLink then !alreadyProcessed
  else false

/- ------------------------------------------------------------------ -/
/- Theorems -/
/- ------------------------------------------------------------------ -/

/-- Helper: when every attempt fails (throws or resolves to null), the
retry loop runs all three attempts with the two sleeps and resolves to
null. -/
theorem fetch_allFail_eq (f : Nat → AttemptRes)
    (h : ∀ i, i < 3 → f i = AttemptRes.exn ∨ f i = AttemptRes.ret none) :
    fetchGroupMetadataDeduped f =
      ([FetchEv.attempt 0, FetchEv.wait 300, FetchEv.attempt 1, FetchEv.wait 600,
        FetchEv.attempt 2], none) := by
  have h0 := h 0 (by omega)
  have h1 := h 1 (by omega)
  have h2 := h 2 (by omega)
  unfold fetchGroupMetadataDeduped
  rcases h0 with h0 | h0 <;> rcases h1 with h1 | h1 <;> rcases h2 with h2 | h2 <;>
    simp [fetchRetryLoop, h0, h1, h2]

/-- Claim C3: if every underlying metadata call fails (throws or returns
null), fetchGroupMetadataDeduped makes exactly 3 attempts, waits 300 ms
after the first and 600 ms after the second, performs no wait after the
final attempt, and resolves to null. -/
theorem claim_C3_retry_exhaustion (f : Nat → AttemptRes)
    (h : ∀ i, i < 3 → f i = AttemptRes.exn ∨ f i = AttemptRes.ret none) :
    fetchGroupMetadataDeduped f =
      ([FetchEv.attempt 0, FetchEv.wait 300, FetchEv.attempt 1, FetchEv.wait 600,
        FetchEv.attempt 2], none) :=
  fetch_allFail_eq f h

/-- Witness for C3 at the always-throwing fetcher. -/
theorem claim_C3_witness :
    fetchGroupMetadataDeduped (fun _ => AttemptRes.exn) =
      ([FetchEv.attempt 0, FetchEv.wait 300, FetchEv.attempt 1, FetchEv.wait 600,
        FetchEv.attempt 2], none) :=
  claim_C3_retry_exhaustion (fun _ => AttemptRes.exn) (fun _ _ => Or.inl rfl)

/-- Counterexample to claim C2 as stated: a fetcher whose every attempt
resolves to a truthy snapshot with an empty participants array.  The loop
returns that memberless snapshot on the very first attempt instead of
treating it as a failure and retrying. -/
theorem claim_C2_counterexample :
    (fetchGroupMetadataDeduped (fun _ => AttemptRes.ret (some ⟨some []⟩))).2 ≠ none ∧
    (fetchGroupMetadataDeduped (fun _ => AttemptRes.ret (some ⟨some []⟩))).1 =
      [FetchEv.attempt 0] := by
  decide

/-- Claim C2 as amended: an attempt counts as a failure for retry purposes
exactly when it throws or resolves to null; on every attempt i, a truthy
snapshot, even one with no members, is a success returned immediately on
that attempt — the trace is the failing attempts before i, each with its
wait, then attempt i last, with no wait after it, and the result is that
snapshot; after exhausting all attempts the fetcher resolves to null
rather than to any snapshot. -/
theorem claim_C2_amended_failure_semantics :
    (∀ (f : Nat → AttemptRes) (i : Nat) (m : GroupMetadata), i < 3 →
      (∀ j, j < i → f j = AttemptRes.exn ∨ f j = AttemptRes.ret none) →
      f i = AttemptRes.ret (some m) →
      fetchGroupMetadataDeduped f = (attemptTracePrefix i ++ [FetchEv.attempt i], some m)) ∧
    (∀ f : Nat → AttemptRes,
      (∀ i, i < 3 → f i = AttemptRes.exn ∨ f i = AttemptRes.ret none) →
      (fetchGroupMetadataDeduped f).2 = none) := by
  constructor
  · intro f i m hi hfail hsucc
    interval_cases i
    · have e : attemptTracePrefix 0 ++ [FetchEv.attempt 0] = [FetchEv.attempt 0] := by
        decide
      rw [e]
      unfold fetchGroupMetadataDeduped
      simp [fetchRetryLoop, hsucc]
    · have e : attemptTracePrefix 1 ++ [FetchEv.attempt 1] =
          [FetchEv.attempt 0, FetchEv.wait 300, FetchEv.attempt 1] := by decide
      rw [e]
      have h0 := hfail 0 (by omega)
      unfold fetchGroupMetadataDeduped
      rcases h0 with h0 | h0 <;> simp [fetchRetryLoop, h0, hsucc]
    · have e : attemptTracePrefix 2 ++ [FetchEv.attempt 2] =
          [FetchEv.attempt 0, FetchEv.wait 300, FetchEv.attempt 1, FetchEv.wait 600,
            FetchEv.attempt 2] := by decide
      rw [e]
      have h0 := hfail 0 (by omega)
      have h1 := hfail 1 (by omega)
      unfold fetchGroupMetadataDeduped
      rcases h0 with h0 | h0 <;> rcases h1 with h1 | h1 <;>
        simp [fetchRetryLoop, h0, h1, hsucc]
  · intro f h
    rw [fetch_allFail_eq f h]

/-- Witness for the amended C2: the first attempt resolves null and the
second attempt succeeds with a memberless snapshot, which is returned
immediately on attempt 1; and an always-null fetcher exhausts to null. -/
theorem claim_C2_amended_witness :
    fetchGroupMetadataDeduped
        (fun j => if j = 0 then AttemptRes.ret none
          else AttemptRes.ret (some ⟨some []⟩)) =
      (attemptTracePrefix 1 ++ [FetchEv.attempt 1], some ⟨some []⟩) ∧
    (fetchGroupMetadataDeduped (fun _ => AttemptRes.ret none)).2 = none := by
  constructor
  · exact claim_C2_amended_failure_semantics.1
      (fun j => if j = 0 then AttemptRes.ret none else AttemptRes.ret (some ⟨some []⟩))
      1 ⟨some []⟩ (by omega)
      (fun j hj => Or.inr (by
        have hj0 : j = 0 := by omega
        subst hj0
        rfl))
      rfl
  · exact claim_C2_amended_failure_semantics.2 (fun _ => AttemptRes.ret none)
      (fun _ _ => Or.inr rfl)

/-- Claim C4: with MAX_WARNS equal to 3 and removal-on-max enabled, from
no warning record, three recorded violations for the same group and user
(removal succeeding on the third) report counts 1 and 2 without removal,
then count 3 with removal, and delete the counter; a fourth violation
afterwards reports count 1 without removal. -/
theorem claim_C4_warning_threshold (w : WarnMap) (g u : Str) (b1 b2 b4 : Bool)
    (hg : (g == []) = false) (hu : (u == []) = false)
    (hw : w (userKey g u) = none) :
    (incrementWarningAndMaybeRemove ⟨3, true⟩ w g u b1).2 = ⟨1, false⟩ ∧
    (incrementWarningAndMaybeRemove ⟨3, true⟩
      (incrementWarningAndMaybeRemove ⟨3, true⟩ w g u b1).1 g u b2).2 = ⟨2, false⟩ ∧
    (incrementWarningAndMaybeRemove ⟨3, true⟩
      (incrementWarningAndMaybeRemove ⟨3, true⟩
        (incrementWarningAndMaybeRemove ⟨3, true⟩ w g u b1).1 g u b2).1 g u true).2 =
      ⟨3, true⟩ ∧
    (incrementWarningAndMaybeRemove ⟨3, true⟩
      (incrementWarningAndMaybeRemove ⟨3, true⟩
        (incrementWarningAndMaybeRemove ⟨3, true⟩ w g u b1).1 g u b2).1 g u true).1
      (userKey g u) = none ∧
    (incrementWarningAndMaybeRemove ⟨3, true⟩
      (incrementWarningAndMaybeRemove ⟨3, true⟩
        (incrementWarningAndMaybeRemove ⟨3, true⟩
          (incrementWarningAndMaybeRemove ⟨3, true⟩ w g u b1).1 g u b2).1 g u true).1
      g u b4).2 = ⟨1, false⟩ := by
  simp [incrementWarningAndMaybeRemove, warnSet, hg, hu, hw]

/-- Witness for C4 from the empty warnings map. -/
theorem claim_C4_witness :
    (incrementWarningAndMaybeRemove ⟨3, true⟩
      (incrementWarningAndMaybeRemove ⟨3, true⟩
        (incrementWarningAndMaybeRemove ⟨3, true⟩ (fun _ => none)
          "g@g.us".toList "7@s.net".toList true).1
        "g@g.us".toList "7@s.net".toList true).1
      "g@g.us".toList "7@s.net".toList true).2 = ⟨3, true⟩ :=
  (claim_C4_warning_threshold (fun _ => none) "g@g.us".toList "7@s.net".toList
    true true true (by decide) (by decide) rfl).2.2.1

/-- Helper: a run of queue operations keeps processed-then-pending equal
to the enqueue order, for every starting state. -/
theorem qrun_invariant {α : Type} (bs : Nat) (ops : List (QOp α)) (st : QState α) :
    (ops.foldl (qstep bs) st).processed ++ (ops.foldl (qstep bs) st).pending =
      st.processed ++ (st.pending ++ enqsOf ops) := by
  induction ops generalizing st with
  | nil => simp [enqsOf]
  | cons op rest ih =>
    cases op with
    | enq a =>
      rw [List.foldl_cons, ih]
      simp [qstep, enqsOf, List.filterMap_cons]
    | batch =>
      rw [List.foldl_cons, ih]
      simp [qstep, enqsOf, List.filterMap_cons]
      rw [← List.append_assoc, List.take_append_drop]

/-- Claim C5: for one group, when the operations of the system enqueue
actions a1, a2, a3 in that order (with batch-drain steps interleaved
arbitrarily, which covers every global concurrency budget, batch size and
inter-batch delay), the actions handed to deletion, followed by those
still pending, are exactly a1, a2, a3 in that order, so deletion attempts
occur in enqueue order. -/
theorem claim_C5_fifo_order {α : Type} (bs : Nat) (ops : List (QOp α)) (a1 a2 a3 : α)
    (h : enqsOf ops = [a1, a2, a3]) :
    (qrun bs ops).processed ++ (qrun bs ops).pending = [a1, a2, a3] := by
  unfold qrun
  rw [qrun_invariant]
  simpa using h

/-- Witness for C5 on a concrete interleaving with batch size 2. -/
theorem claim_C5_witness :
    (qrun 2 [QOp.enq 1, QOp.enq 2, QOp.batch, QOp.enq 3, QOp.batch]).processed ++
      (qrun 2 [QOp.enq 1, QOp.enq 2, QOp.batch, QOp.enq 3, QOp.batch]).pending =
      [1, 2, 3] :=
  @claim_C5_fifo_order Nat 2 [QOp.enq 1, QOp.enq 2, QOp.batch, QOp.enq 3, QOp.batch]
    1 2 3 rfl

/-- Claim C6: a violating message key accepted at instant t0 installs a
5000 ms suppression timer and enqueues exactly one action; the same key
arriving again at any t1 within the window is dropped silently, leaving
the state unchanged. -/
theorem claim_C6_duplicate_suppression (st : DupState) (t0 t1 : Nat) (k : Str)
    (h0 : hasLiveKey st.processed k t0 = false) (hq : k ∉ st.queue)
    (h01 : t0 ≤ t1) (h5 : t1 < t0 + 5000) :
    (onMessageLinkStep st t0 k).2 = true ∧
    (onMessageLinkStep st t0 k).1.queue = st.queue ++ [k] ∧
    ((onMessageLinkStep st t0 k).1.queue.count k = 1) ∧
    (onMessageLinkStep (onMessageLinkStep st t0 k).1 t1 k).2 = false ∧
    (onMessageLinkStep (onMessageLinkStep st t0 k).1 t1 k).1 =
      (onMessageLinkStep st t0 k).1 := by
  have hcount : st.queue.count k = 0 := List.count_eq_zero.mpr hq
  have e1 : onMessageLinkStep st t0 k =
      (⟨fun x => if x = k then some (t0 + 5000) else st.processed x, st.queue ++ [k]⟩,
        true) := by
    unfold onMessageLinkStep
    rw [h0]
    simp
  rw [e1]
  have e2 : onMessageLinkStep
      (⟨fun x => if x = k then some (t0 + 5000) else st.processed x,
        st.queue ++ [k]⟩ : DupState) t1 k =
      ((⟨fun x => if x = k then some (t0 + 5000) else st.processed x,
        st.queue ++ [k]⟩ : DupState), false) := by
    unfold onMessageLinkStep
    have hl : hasLiveKey (fun x => if x = k then some (t0 + 5000) else st.processed x)
        k t1 = true := by
      simp [hasLiveKey, h5]
    rw [hl]
    simp
  rw [e2]
  refine ⟨rfl, rfl, ?_, rfl, rfl⟩
  simp [List.count_append, List.count_cons, hcount]

/-- Witness for C6 at a concrete key and times 0 and 4999. -/
theorem claim_C6_witness :
    (onMessageLinkStep ⟨fun _ => none, []⟩ 0 "g@g.us:ID1".toList).2 = true ∧
    (onMessageLinkStep ⟨fun _ => none, []⟩ 0 "g@g.us:ID1".toList).1.queue =
      [] ++ ["g@g.us:ID1".toList] ∧
    ((onMessageLinkStep ⟨fun _ => none, []⟩ 0 "g@g.us:ID1".toList).1.queue.count
      "g@g.us:ID1".toList = 1) ∧
    (onMessageLinkStep (onMessageLinkStep ⟨fun _ => none, []⟩ 0 "g@g.us:ID1".toList).1
      4999 "g@g.us:ID1".toList).2 = false ∧
    (onMessageLinkStep (onMessageLinkStep ⟨fun _ => none, []⟩ 0 "g@g.us:ID1".toList).1
      4999 "g@g.us:ID1".toList).1 =
      (onMessageLinkStep ⟨fun _ => none, []⟩ 0 "g@g.us:ID1".toList).1 :=
  claim_C6_duplicate_suppression ⟨fun _ => none, []⟩ 0 4999 "g@g.us:ID1".toList
    rfl (by simp) (by omega) (by omega)

/-- Helper: an unmarked participant never changes the admin set. -/
theorem buildAdminStep_unmarked (admins : List Str) (p : Participant)
    (h : isAdminMarked p = false) : buildAdminStep admins p = admins := by
  unfold buildAdminStep
  by_cases hns : isNullOrStringPart p
  · simp [hns]
  · cases hni : normalizeParticipantId p with
    | none => simp [hns, hni]
    | some i => simp [hns, hni, h]

/-- Helper: with no admin-marked participant the built admin set is empty. -/
theorem buildAdminSet_nil_of_unmarked (ps : List Participant)
    (h : ∀ p ∈ ps, isAdminMarked p = false) :
    buildAdminSetFromParticipants ps = [] := by
  unfold buildAdminSetFromParticipants
  have H : ∀ (qs : List Participant), (∀ p ∈ qs, isAdminMarked p = false) →
      ∀ acc : List Str, qs.foldl buildAdminStep acc = acc := by
    intro qs
    induction qs with
    | nil => intro _ acc; rfl
    | cons p rest ih =>
      intro h2 acc
      rw [List.foldl_cons, buildAdminStep_unmarked acc p (h2 p (by simp))]
      exact ih (fun q hq => h2 q (by simp [hq])) acc
  exact H ps h []

/-- Claim C1: on a cache miss, when the deduplicated fetch resolves to
null, isadmin answers false for any non-self message, and the admin cache
is left untouched, so a later lookup for that group is still a miss. -/
theorem claim_C1_failsafe_no_cache (cache : AdminCache) (ctx : Ctx) (k : MsgKey) (g : Str)
    (hk : ctx.key = some k) (hf : k.fromMe = false)
    (hg : chatIdOf ctx = some g) (hc : cache g = none) :
    (isadmin cache ctx none).result = false ∧
      ∀ x, (isadmin cache ctx none).cache x = cache x := by
  simp only [isadmin, hk, hf, hg, hc]
  cases hE : jsEndsWith g "@g.us".toList with
  | false => simp [hE]
  | true =>
    cases hS : senderRawOf ctx with
    | none => simp [hE, hS]
    | some sraw => simp [hE, hS]

/-- Witness for C1: empty cache, fresh group, plain sender. -/
theorem claim_C1_witness :
    (isadmin (fun _ => none)
      ⟨some ⟨false, some "123@g.us".toList, some "7@s.net".toList, none⟩,
        none, none, none⟩ none).result = false ∧
    ∀ x, (isadmin (fun _ => none)
      ⟨some ⟨false, some "123@g.us".toList, some "7@s.net".toList, none⟩,
        none, none, none⟩ none).cache x = (fun _ => none : AdminCache) x :=
  claim_C1_failsafe_no_cache (fun _ => none)
    ⟨some ⟨false, some "123@g.us".toList, some "7@s.net".toList, none⟩, none, none, none⟩
    ⟨false, some "123@g.us".toList, some "7@s.net".toList, none⟩
    "123@g.us".toList rfl rfl (by decide) rfl

/-- Claim C10: when the fetch succeeds but no participant is admin-marked,
isadmin installs a permanent entry with the empty admin set for the group,
answers false, and every later call for that group is answered not-admin
from the entry without consulting the fetcher and without changing the
cache. -/
theorem claim_C10_empty_admin_entry (cache : AdminCache) (ctx : Ctx) (k : MsgKey)
    (g sraw : Str) (md : GroupMetadata)
    (hk : ctx.key = some k) (hf : k.fromMe = false)
    (hg : chatIdOf ctx = some g) (hsuf : jsEndsWith g "@g.us".toList = true)
    (hs : senderRawOf ctx = some sraw) (hc : cache g = none)
    (hps : ∀ p ∈ md.participants.getD [], isAdminMarked p = false) :
    (isadmin cache ctx (some md)).result = false ∧
    (isadmin cache ctx (some md)).cache g = some [] ∧
    (isadmin cache ctx (some md)).fetched = true ∧
    ∀ (ctx2 : Ctx) (k2 : MsgKey) (fr : Option GroupMetadata),
      ctx2.key = some k2 → k2.fromMe = false → chatIdOf ctx2 = some g →
      (isadmin (isadmin cache ctx (some md)).cache ctx2 fr).result = false ∧
      (isadmin (isadmin cache ctx (some md)).cache ctx2 fr).fetched = false ∧
      ∀ x, (isadmin (isadmin cache ctx (some md)).cache ctx2 fr).cache x =
        (isadmin cache ctx (some md)).cache x := by
  have hbuild : buildAdminSetFromParticipants (md.participants.getD []) = [] :=
    buildAdminSet_nil_of_unmarked _ hps
  have e1 : isadmin cache ctx (some md) = ⟨false, cacheSet cache g [], true⟩ := by
    simp only [isadmin, hk, hf, hg, hc, hsuf, hs, hbuild]
    simp [adminMatches]
  rw [e1]
  have hcg : cacheSet cache g [] g = some [] := by simp [cacheSet]
  refine ⟨rfl, hcg, rfl, ?_⟩
  intro ctx2 k2 fr hk2 hf2 hg2
  simp only [isadmin, hk2, hf2, hg2, hsuf, hcg]
  cases hs2 : senderRawOf ctx2 with
  | none => simp [hs2]
  | some s2 => simp [hs2, adminMatches]

/-- Witness for C10: fresh group, metadata whose participants are a plain
string and a null entry, then a second lookup for the same group. -/
theorem claim_C10_witness :
    (isadmin (fun _ => none)
      ⟨some ⟨false, some "123@g.us".toList, some "7@s.net".toList, none⟩,
        none, none, none⟩
      (some ⟨some [Participant.pstr "9@s.net".toList, Participant.pnull]⟩)).result =
      false ∧
    (isadmin (fun _ => none)
      ⟨some ⟨false, some "123@g.us".toList, some "7@s.net".toList, none⟩,
        none, none, none⟩
      (some ⟨some [Participant.pstr "9@s.net".toList, Participant.pnull]⟩)).cache
      "123@g.us".toList = some [] ∧
    (isadmin (isadmin (fun _ => none)
      ⟨some ⟨false, some "123@g.us".toList, some "7@s.net".toList, none⟩,
        none, none, none⟩
      (some ⟨some [Participant.pstr "9@s.net".toList, Participant.pnull]⟩)).cache
      ⟨some ⟨false, some "123@g.us".toList, some "9@s.net".toList, none⟩,
        none, none, none⟩ none).result = false ∧
    (isadmin (isadmin (fun _ => none)
      ⟨some ⟨false, some "123@g.us".toList, some "7@s.net".toList, none⟩,
        none, none, none⟩
      (some ⟨some [Participant.pstr "9@s.net".toList, Participant.pnull]⟩)).cache
      ⟨some ⟨false, some "123@g.us".toList, some "9@s.net".toList, none⟩,
        none, none, none⟩ none).fetched = false := by
  have H := claim_C10_empty_admin_entry (fun _ => none)
    ⟨some ⟨false, some "123@g.us".toList, some "7@s.net".toList, none⟩, none, none, none⟩
    ⟨false, some "123@g.us".toList, some "7@s.net".toList, none⟩
    "123@g.us".toList "7@s.net".toList
    ⟨some [Participant.pstr "9@s.net".toList, Participant.pnull]⟩
    rfl rfl (by decide) (by decide) (by decide) rfl (by decide)
  refine ⟨H.1, H.2.1, ?_, ?_⟩
  · exact (H.2.2.2 ⟨some ⟨false, some "123@g.us".toList, some "9@s.net".toList, none⟩,
      none, none, none⟩
      ⟨false, some "123@g.us".toList, some "9@s.net".toList, none⟩ none
      rfl rfl (by decide)).1
  · exact (H.2.2.2 ⟨some ⟨false, some "123@g.us".toList, some "9@s.net".toList, none⟩,
      none, none, none⟩
      ⟨false, some "123@g.us".toList, some "9@s.net".toList, none⟩ none
      rfl rfl (by decide)).2.1

/-- Counterexample to claim C7 as stated: user 77 is already in the admin
set of the cached entry; after a promote event and then a demote event for
77 the entry is empty, so the pre-promote membership of 77 is not
restored. -/
theorem claim_C7_counterexample :
    (fun x => if x = "123@g.us".toList then some ["77".toList] else none :
      AdminCache) "123@g.us".toList = some ["77".toList] ∧
    (gpHandler (gpHandler
        (fun x => if x = "123@g.us".toList then some ["77".toList] else none)
        ⟨some "123@g.us".toList, [Participant.pstr "77".toList], "promote".toList⟩)
        ⟨some "123@g.us".toList, [Participant.pstr "77".toList], "demote".toList⟩)
      "123@g.us".toList = some [] := by
  decide

/-- Claim C7 as amended: a promote event for u followed by a demote event
for u restores the pre-promote cache exactly, provided u was not already
in the admin set before the promote; when u was already an admin the
demote removes u, as the counterexample shows. -/
theorem claim_C7_amended_promote_demote (cache : AdminCache) (g : Str)
    (admins : List Str) (praw pid : Str)
    (hg : (g == []) = false) (hc : cache g = some admins)
    (hn : normalizeParticipantId (Participant.pstr praw) = some pid)
    (hpid : (pid == []) = false) (hmem : pid ∉ admins) :
    ∀ x, gpHandler (gpHandler cache
        ⟨some g, [Participant.pstr praw], "promote".toList⟩)
        ⟨some g, [Participant.pstr praw], "demote".toList⟩ x = cache x := by
  have ht : truthyStr (some g) = some g := by simp [truthyStr, hg]
  have hpid2 : pid ≠ [] := by simpa using hpid
  have hids : gpPartIds [Participant.pstr praw] = [pid] := by
    simp [gpPartIds, hn, hpid2]
  have e1 : gpHandler cache ⟨some g, [Participant.pstr praw], "promote".toList⟩ =
      cacheSet cache g (setAdd admins pid) := by
    simp only [gpHandler, ht, hc, hids]
    simp
  have hcg : cacheSet cache g (setAdd admins pid) g = some (setAdd admins pid) := by
    simp [cacheSet]
  have hne : ("demote".toList == "promote".toList) = false := by decide
  have e2 : gpHandler (cacheSet cache g (setAdd admins pid))
      ⟨some g, [Participant.pstr praw], "demote".toList⟩ =
      cacheSet (cacheSet cache g (setAdd admins pid)) g
        (setDel (setAdd admins pid) pid) := by
    simp only [gpHandler, ht, hcg, hids, hne]
    simp
  have hadd : setAdd admins pid = admins ++ [pid] := by simp [setAdd, hmem]
  have hdel : setDel (setAdd admins pid) pid = admins := by
    rw [hadd]
    unfold setDel
    rw [List.filter_append]
    have h1 : admins.filter (fun a => !(a == pid)) = admins := by
      apply List.filter_eq_self.mpr
      intro a ha
      simp only [Bool.not_eq_true', beq_eq_false_iff_ne]
      intro hEq
      exact hmem (hEq ▸ ha)
    have h2 : [pid].filter (fun a => !(a == pid)) = [] := by simp
    rw [h1, h2, List.append_nil]
  intro x
  rw [e1, e2, hdel]
  unfold cacheSet
  by_cases hx : x = g
  · simp [hx, hc]
  · simp [hx]

/-- Witness for the amended C7: user 9 not previously an admin is promoted
and then demoted; the cache entry at the group is back to its old value. -/
theorem claim_C7_amended_witness :
    gpHandler (gpHandler
        (fun x => if x = "123@g.us".toList then some ["77".toList] else none)
        ⟨some "123@g.us".toList, [Participant.pstr "9".toList], "promote".toList⟩)
        ⟨some "123@g.us".toList, [Participant.pstr "9".toList], "demote".toList⟩
      "123@g.us".toList =
      (fun x => if x = "123@g.us".toList then some ["77".toList] else none :
        AdminCache) "123@g.us".toList :=
  claim_C7_amended_promote_demote
    (fun x => if x = "123@g.us".toList then some ["77".toList] else none)
    "123@g.us".toList ["77".toList] "9".toList "9".toList
    (by decide) (by decide) (by decide) (by decide) (by decide)
    "123@g.us".toList

/-- Helper: startsWithList decides the prefix relation. -/
theorem startsWithList_iff : ∀ (n h : Str), startsWithList n h = true ↔ n <+: h
  | [], h => by simp [startsWithList, List.nil_prefix]
  | a :: as, [] => by simp [startsWithList, List.prefix_nil]
  | a :: as, b :: bs => by
    simp [startsWithList, Bool.and_eq_true, beq_iff_eq, startsWithList_iff as bs,
      List.cons_prefix_cons]

/-- Helper: jsIncludes decides the substring relation. -/
theorem jsIncludes_iff : ∀ (hay needle : Str), jsIncludes hay needle = true ↔ needle <:+: hay
  | [], [] => by simp [jsIncludes, startsWithList, List.infix_nil]
  | [], c :: cs => by simp [jsIncludes, startsWithList, List.infix_nil]
  | h :: t, needle => by
    rw [show jsIncludes (h :: t) needle =
        (if startsWithList needle (h :: t) = true then true else jsIncludes t needle)
      from rfl]
    by_cases hs : startsWithList needle (h :: t) = true
    · rw [if_pos hs]
      exact iff_of_true rfl (((startsWithList_iff needle (h :: t)).mp hs).isInfix)
    · rw [if_neg hs, jsIncludes_iff t needle, List.infix_cons_iff]
      constructor
      · exact Or.inr
      · rintro (hp | hi)
        · exact absurd ((startsWithList_iff needle (h :: t)).mpr hp) hs
        · exact hi

/-- Counterexample to claim C8 as stated: the whitelist holds the user
entry with an upper-case local part, the sender is the same identity in
lower case.  The normalized forms match, so the claim calls the message
exempt, but the code compares raw strings, finds no whitelist match, and
enqueues the message for deletion. -/
theorem claim_C8_counterexample :
    claimWhitelistedMsg ["U@x".toList] "u@x".toList "hello http://z.zz".toList = true ∧
    isWhitelistedMsg ["U@x".toList] "u@x".toList "hello http://z.zz".toList = false ∧
    enforcementDecision true false false ["U@x".toList] "u@x".toList
      "hello http://z.zz".toList true false = true := by
  decide

/-- Claim C8 as amended: a non-admin message passes the whitelist check
iff some entry either contains an at-sign and equals the raw sender
identity (exact string equality, not normalized equality), or contains no
at-sign and occurs as a substring of the message text; in particular with
whitelist example.com a message containing example.com/page is not
enqueued for deletion. -/
theorem claim_C8_amended_whitelist_semantics :
    (∀ (wl : List Str) (s text : Str),
      isWhitelistedMsg wl s text = true ↔
        ∃ item ∈ wl, ('@' ∈ item ∧ item = s) ∨ ('@' ∉ item ∧ item <:+: text)) ∧
    enforcementDecision true false false ["example.com".toList] "7@s.net".toList
      "see example.com/page now".toList true false = false := by
  constructor
  · intro wl s text
    rw [isWhitelistedMsg, List.any_eq_true]
    refine exists_congr fun item => and_congr_right fun _ => ?_
    simp [List.contains, List.elem_iff, jsIncludes_iff, Bool.not_eq_true']
  · decide

/-- Witness for the amended C8: a raw-equal user entry exempts, and the
example.com scenario is not enqueued. -/
theorem claim_C8_amended_witness :
    isWhitelistedMsg ["a@b".toList] "a@b".toList [] = true ∧
    enforcementDecision true false false ["example.com".toList] "7@s.net".toList
      "see example.com/page now".toList true false = false :=
  ⟨(claim_C8_amended_whitelist_semantics.1 ["a@b".toList] "a@b".toList []).mpr
    ⟨"a@b".toList, by simp, Or.inl ⟨by decide, rfl⟩⟩,
   claim_C8_amended_whitelist_semantics.2⟩

/-- Helper: character equality is equality of code points. -/
theorem char_eq_iff_toNat (c d : Char) : c = d ↔ c.toNat = d.toNat := by
  constructor
  · intro h; rw [h]
  · intro h; exact Char.eq_of_val_eq (UInt32.ext h)

/-- Helper: packing a valid code point round-trips. -/
theorem toNat_ofNat_valid (n : Nat) (h : n.isValidChar) : (Char.ofNat n).toNat = n := by
  rw [Char.ofNat, dif_pos h]; rfl

/-- Helper: lower-casing an upper-case letter adds 32 to the code point. -/
theorem lowerChar_toNat_of_upper (c : Char) (h : 65 ≤ c.toNat ∧ c.toNat ≤ 90) :
    (lowerChar c).toNat = c.toNat + 32 := by
  rw [lowerChar, if_pos h]
  apply toNat_ofNat_valid
  left
  omega

/-- Helper: lower-casing one character is idempotent. -/
theorem lowerChar_idem (c : Char) : lowerChar (lowerChar c) = lowerChar c := by
  by_cases h : 65 ≤ c.toNat ∧ c.toNat ≤ 90
  · have e : lowerChar c = Char.ofNat (c.toNat + 32) := by rw [lowerChar, if_pos h]
    have hv : (Char.ofNat (c.toNat + 32)).toNat = c.toNat + 32 :=
      toNat_ofNat_valid _ (by left; omega)
    rw [e, lowerChar, if_neg]
    rw [hv]
    omega
  · have e : lowerChar c = c := by rw [lowerChar, if_neg h]
    rw [e, e]

/-- Helper: characters with code point at least 33 are not whitespace. -/
theorem isWsChar_false_of_ge (c : Char) (h : 33 ≤ c.toNat) : isWsChar c = false := by
  have hne : ∀ d : Char, d.toNat < 33 → (c == d) = false := by
    intro d hd
    apply beq_eq_false_iff_ne.mpr
    intro he
    rw [he] at h
    omega
  unfold isWsChar
  rw [hne ' ' (by decide), hne '\t' (by decide), hne '\n' (by decide),
    hne '\r' (by decide), hne '\x0b' (by decide), hne '\x0c' (by decide)]
  rfl

/-- Helper: lower-casing preserves non-whitespace. -/
theorem lowerChar_ws_false (c : Char) (h : isWsChar c = false) :
    isWsChar (lowerChar c) = false := by
  by_cases hu : 65 ≤ c.toNat ∧ c.toNat ≤ 90
  · apply isWsChar_false_of_ge
    rw [lowerChar_toNat_of_upper c hu]
    omega
  · rw [lowerChar, if_neg hu]
    exact h

/-- Helper: dropWhile is the identity on whitespace-free lists. -/
theorem dropWhile_eq_self_of_all (l : List Char) (h : ∀ c ∈ l, isWsChar c = false) :
    l.dropWhile isWsChar = l := by
  cases l with
  | nil => rfl
  | cons a t => rw [List.dropWhile_cons]; simp [h a (by simp)]

/-- Helper: jsTrim is the identity on whitespace-free lists. -/
theorem jsTrim_eq_self (l : List Char) (h : ∀ c ∈ l, isWsChar c = false) :
    jsTrim l = l := by
  unfold jsTrim
  rw [dropWhile_eq_self_of_all l h,
    dropWhile_eq_self_of_all l.reverse (fun c hc => h c (List.mem_reverse.mp hc)),
    List.reverse_reverse]

/-- Helper: jsLower is the identity on lists of lower-fixed characters. -/
theorem jsLower_eq_self : ∀ l : List Char, (∀ c ∈ l, lowerChar c = c) → jsLower l = l
  | [], _ => rfl
  | a :: t, h => by
    rw [show jsLower (a :: t) = lowerChar a :: jsLower t from rfl, h a (by simp),
      jsLower_eq_self t (fun c hc => h c (by simp [hc]))]

/-- Helper: takeWhile is the identity when the predicate holds throughout. -/
theorem takeWhile_all_eq (p : Char → Bool) :
    ∀ l : List Char, (∀ c ∈ l, p c = true) → l.takeWhile p = l
  | [], _ => rfl
  | a :: t, h => by
    rw [List.takeWhile_cons, if_pos (h a (by simp)),
      takeWhile_all_eq p t (fun c hc => h c (by simp [hc]))]

/-- Helper: takeWhile stops exactly at the first failing element. -/
theorem takeWhile_append_all (p : Char → Bool) (b : Char) (l₂ : List Char)
    (hb : p b = false) :
    ∀ l₁ : List Char, (∀ c ∈ l₁, p c = true) → (l₁ ++ b :: l₂).takeWhile p = l₁
  | [], _ => by rw [List.nil_append, List.takeWhile_cons, if_neg (by simp [hb])]
  | a :: t, h => by
    rw [List.cons_append, List.takeWhile_cons, if_pos (h a (by simp)),
      takeWhile_append_all p b l₂ hb t (fun c hc => h c (by simp [hc]))]

/-- Helper: dropWhile drops exactly up to the first failing element. -/
theorem dropWhile_append_all (p : Char → Bool) (b : Char) (l₂ : List Char)
    (hb : p b = false) :
    ∀ l₁ : List Char, (∀ c ∈ l₁, p c = true) → (l₁ ++ b :: l₂).dropWhile p = b :: l₂
  | [], _ => by rw [List.nil_append, List.dropWhile_cons, if_neg (by simp [hb])]
  | a :: t, h => by
    rw [List.cons_append, List.dropWhile_cons, if_pos (h a (by simp)),
      dropWhile_append_all p b l₂ hb t (fun c hc => h c (by simp [hc]))]

/-- Helper: on identities containing no whitespace, normalizeJid is
idempotent. -/
theorem normalizeJid_idem_of_noWs (j : Str) (h : ∀ c ∈ j, isWsChar c = false) :
    normalizeJid (normalizeJid j) = normalizeJid j := by
  by_cases hj : j = []
  · subst hj; simp [normalizeJid]
  · have htr : jsTrim j = j := jsTrim_eq_self j h
    have hs_ws : ∀ c ∈ jsLower j, isWsChar c = false := by
      intro c hc
      rcases List.mem_map.mp hc with ⟨d, hd, rfl⟩
      exact lowerChar_ws_false d (h d hd)
    have hs_lo : ∀ c ∈ jsLower j, lowerChar c = c := by
      intro c hc
      rcases List.mem_map.mp hc with ⟨d, hd, rfl⟩
      exact lowerChar_idem d
    have e1 : normalizeJid j =
        (if '@' ∈ jsLower j then
          takeLocal ((jsLower j).takeWhile (fun c => !(c == '@'))) ++
            '@' :: ((jsLower j).dropWhile (fun c => !(c == '@'))).tail
        else takeLocal (jsLower j)) := by
      simp only [normalizeJid]
      rw [htr, if_neg hj]
    by_cases hat : '@' ∈ jsLower j
    · rw [if_pos hat] at e1
      set pre := (jsLower j).takeWhile (fun c => !(c == '@')) with hpre
      set post := ((jsLower j).dropWhile (fun c => !(c == '@'))).tail with hpost
      set loc := takeLocal pre with hloc
      have pre_sub : ∀ c ∈ pre, c ∈ jsLower j := by
        intro c hc
        rw [hpre] at hc
        exact (List.takeWhile_prefix _).subset hc
      have loc_sub : ∀ c ∈ loc, c ∈ pre := by
        intro c hc
        rw [hloc] at hc
        exact (List.takeWhile_prefix _).subset hc
      have post_sub : ∀ c ∈ post, c ∈ jsLower j := by
        intro c hc
        rw [hpost] at hc
        exact (List.dropWhile_suffix _).subset (List.mem_of_mem_tail hc)
      have r_ws : ∀ c ∈ loc ++ '@' :: post, isWsChar c = false := by
        intro c hc
        rcases List.mem_append.mp hc with hcl | hcr
        · exact hs_ws c (pre_sub c (loc_sub c hcl))
        · rcases List.mem_cons.mp hcr with rfl | hcp
          · decide
          · exact hs_ws c (post_sub c hcp)
      have r_lo : ∀ c ∈ loc ++ '@' :: post, lowerChar c = c := by
        intro c hc
        rcases List.mem_append.mp hc with hcl | hcr
        · exact hs_lo c (pre_sub c (loc_sub c hcl))
        · rcases List.mem_cons.mp hcr with rfl | hcp
          · decide
          · exact hs_lo c (post_sub c hcp)
      have r_ne : (loc ++ '@' :: post) ≠ [] := by simp
      have loc_pred : ∀ c ∈ loc, (!(c == '@')) = true := by
        intro c hc
        have hcp := loc_sub c hc
        rw [hpre] at hcp
        have hp := List.mem_takeWhile_imp hcp
        exact hp
      have etw : (loc ++ '@' :: post).takeWhile (fun c => !(c == '@')) = loc :=
        takeWhile_append_all _ '@' post (by decide) loc loc_pred
      have edw : (loc ++ '@' :: post).dropWhile (fun c => !(c == '@')) = '@' :: post :=
        dropWhile_append_all _ '@' post (by decide) loc loc_pred
      have etl : takeLocal loc = loc := by
        apply takeWhile_all_eq
        intro c hc
        rw [hloc] at hc
        exact List.mem_takeWhile_imp hc
      have e2 : normalizeJid (loc ++ '@' :: post) = loc ++ '@' :: post := by
        have et : jsTrim (loc ++ '@' :: post) = loc ++ '@' :: post :=
          jsTrim_eq_self _ r_ws
        have el : jsLower (loc ++ '@' :: post) = loc ++ '@' :: post :=
          jsLower_eq_self _ r_lo
        have hat2 : '@' ∈ loc ++ '@' :: post := by simp
        simp only [normalizeJid]
        rw [if_neg r_ne, et, el, if_pos hat2, etw, edw]
        simp [etl]
      rw [e1, e2]
    · rw [if_neg hat] at e1
      have r_sub : ∀ c ∈ takeLocal (jsLower j), c ∈ jsLower j := by
        intro c hc
        exact (List.takeWhile_prefix _).subset hc
      by_cases hr : takeLocal (jsLower j) = []
      · rw [e1, hr]
        simp [normalizeJid]
      · have r_ws : ∀ c ∈ takeLocal (jsLower j), isWsChar c = false :=
          fun c hc => hs_ws c (r_sub c hc)
        have r_lo : ∀ c ∈ takeLocal (jsLower j), lowerChar c = c :=
          fun c hc => hs_lo c (r_sub c hc)
        have hat2 : '@' ∉ takeLocal (jsLower j) := fun hmem => hat (r_sub _ hmem)
        have et : jsTrim (takeLocal (jsLower j)) = takeLocal (jsLower j) :=
          jsTrim_eq_self _ r_ws
        have el : jsLower (takeLocal (jsLower j)) = takeLocal (jsLower j) :=
          jsLower_eq_self _ r_lo
        have etl : takeLocal (takeLocal (jsLower j)) = takeLocal (jsLower j) :=
          takeWhile_all_eq notSepChar _ (fun c hc => List.mem_takeWhile_imp hc)
        rw [e1]
        simp only [normalizeJid]
        rw [if_neg hr, et, el, if_neg hat2]
        exact etl

/-- Counterexample to claim C9 as stated: the identity consisting of a, b,
space, colon, c.  Normalizing once keeps the part before the colon with
its trailing space; normalizing again trims that space, so normalization
is not idempotent. -/
theorem claim_C9_counterexample :
    normalizeJid (normalizeJid "ab :c".toList) ≠ normalizeJid "ab :c".toList := by
  decide

/-- Claim C9 as amended: normalization is total — defined on every JS
value, returning non-string inputs unchanged rather than throwing — and
idempotent on every identity containing no whitespace character.  An
identity with whitespace just before a colon or slash separator normalizes
to a string with trailing whitespace, which a second application trims, as
the counterexample shows. -/
theorem claim_C9_amended_total_idem :
    (∀ v : JVal, isJStr v = false → normalizeJidJs v = v) ∧
    (∀ j : Str, (∀ c ∈ j, isWsChar c = false) →
      normalizeJid (normalizeJid j) = normalizeJid j) := by
  constructor
  · intro v hv
    cases v with
    | jstr s => simp [isJStr] at hv
    | jnull => rfl
    | jundef => rfl
    | jnum n => rfl
    | jbool b => rfl
  · exact normalizeJid_idem_of_noWs

/-- Witness for the amended C9: null input unchanged, and a concrete
whitespace-free identity normalized idempotently. -/
theorem claim_C9_amended_witness :
    normalizeJidJs JVal.jnull = JVal.jnull ∧
    normalizeJid (normalizeJid "A:1@S.net".toList) = normalizeJid "A:1@S.net".toList :=
  ⟨claim_C9_amended_total_idem.1 JVal.jnull rfl,
   claim_C9_amended_total_idem.2 "A:1@S.net".toList (by decide)⟩

end TCT
